import Mathlib

/-!
Verification of the simple-knowledge-base backend (src/backend/app) against its
natural-language specification.  The Python source is shallowly embedded:

* text is modelled as `List Char` (Python `str`),
* Python exceptions become an explicit error type threaded through `Except`,
* the LanceDB store becomes an explicit state record (`DBState`) passed through
  every manager operation, mirroring `app/database.py`,
* external capabilities (the embedding model, the cross-encoder reranker, the
  semantic chunker, the filesystem, and HTTP fetching) are parameters, exactly
  as the spec treats them (capability boundary, sections 4.2 and 6).

Each definition is translated from the named source location; definitions whose
names match the Python identifiers keep those names.
-/

/-- Error taxonomy of the application, from `app/exceptions.py` plus the two
built-in Python exception kinds the code can raise: `ValueError` (modelled as
`invalidInput`, handled by the `ValueError` handler in `main.py`) and
`AttributeError` (`attributeError`, which no handler catches: it is a generic,
unlabeled failure in the sense of spec section 7). -/
inductive KBError where
  | indexNotFound (index_name : String)
  | indexAlreadyExists (index_name : String)
  | documentNotFound (document_path : String)
  | directoryNotFound (directory_path : String)
  | invalidInput (msg : String)
  | fetchError (url : List Char) (reason : String)
  | parseError (url : List Char) (reason : String)
  | attributeError (msg : String)
deriving DecidableEq

/-- Whether an error belongs to the taxonomy of spec section 7
(`NotFound`, `AlreadyExists`, `InvalidInput`, `FetchFailure`, `ParseFailure`).
`attributeError` is Python's `AttributeError`: `main.py` registers handlers only
for the taxonomy exceptions, so an `AttributeError` escapes as a generic
unlabeled 500 failure. -/
def KBError.isTaxonomy : KBError → Bool
  | .attributeError _ => false
  | _ => true

/-- A stored chunk record, from `ChunkSchema` in `app/models.py`.  Embedding
vectors are abstract numeric vectors (`List Int`); `created_at` is an abstract
timestamp. -/
structure Chunk where
  chunk_id : String
  content : List Char
  embedding : List Int
  source_document : List Char
  chunk_offset : Int
  token_count : Nat
  created_at : Nat
deriving DecidableEq

/-- State of the LanceDB store together with the manager's handle cache, from
`LanceDBManager` in `app/database.py`.  `tableNames` models
`db.table_names()`, `tableData` the rows of each table, and `cache` the keys of
`self._tables` (a handle is just the table name here; the rows live in the
store). -/
structure DBState where
  tableNames : List String
  tableData : String → List Chunk
  cache : List String

/-- Key insertion into the handle cache: `self._tables[name] = table` adds the
key `name` if it is not already a key (Python dict assignment; key order is
insertion order). -/
def cacheInsert (c : List String) (n : String) : List String :=
  if n ∈ c then c else c ++ [n]

/-- LanceDBManager.create_index (`app/database.py` lines 43-66): raises
`IndexAlreadyExistsError` when the table already exists, otherwise creates the
empty table and caches its handle.  Returns the post-call state and the Python
result (`True` on success). -/
def create_index (st : DBState) (index_name : String) :
    DBState × Except KBError Bool :=
  if index_name ∈ st.tableNames then
    (st, .error (.indexAlreadyExists index_name))
  else
    ({ tableNames := st.tableNames ++ [index_name]
       tableData := fun m => if m = index_name then [] else st.tableData m
       cache := cacheInsert st.cache index_name },
     .ok true)

/-- LanceDBManager.index_exists (`app/database.py` lines 68-80). -/
def index_exists (st : DBState) (index_name : String) : Bool :=
  index_name ∈ st.tableNames

/-- LanceDBManager._get_table (`app/database.py` lines 93-119): return the
cached handle if present; otherwise raise `IndexNotFoundError` when the table
does not exist, else open the table and cache it. -/
def get_table (st : DBState) (index_name : String) :
    DBState × Except KBError String :=
  if index_name ∈ st.cache then
    (st, .ok index_name)
  else if index_name ∉ st.tableNames then
    (st, .error (.indexNotFound index_name))
  else
    ({ st with cache := cacheInsert st.cache index_name }, .ok index_name)

/-- LanceDBManager.delete_index (`app/database.py` lines 206-233): raises
`IndexNotFoundError` when absent, otherwise drops the table and evicts the
cached handle. -/
def delete_index (st : DBState) (index_name : String) :
    DBState × Except KBError Bool :=
  if index_name ∉ st.tableNames then
    (st, .error (.indexNotFound index_name))
  else
    ({ st with
       tableNames := st.tableNames.erase index_name
       cache := st.cache.erase index_name },
     .ok true)

/-- LanceDBManager.close (`app/database.py` lines 235-240): drops the
connection and clears the handle cache (table data is on disk and untouched). -/
def closeManager (st : DBState) : DBState :=
  { st with cache := [] }

/-- Zip of the four per-chunk lists.  Python `zip(a, b, c, d, strict=True)`
pairs elements positionally; with `strict=True` it raises `ValueError` when the
lengths differ (that check is `add_chunks`' guard below).  This function is the
equal-length case. -/
def zip4 {α β γ δ : Type} : List α → List β → List γ → List δ → List (α × β × γ × δ)
  | a :: as, b :: bs, c :: cs, d :: ds => (a, b, c, d) :: zip4 as bs cs ds
  | _, _, _, _ => []

/-- The batch of `ChunkSchema` records built by `add_chunks`: record `i` gets
`chunk_id = idGen i` (the `i`-th call of `uuid4()`) and
`created_at = clock i` (the `i`-th call of `datetime.now`). -/
def buildChunks (idGen : Nat → String) (clock : Nat → Nat)
    (contents : List (List Char)) (embeddings : List (List Int))
    (source_document : List Char) (chunk_offsets : List Int)
    (token_counts : List Nat) : List Chunk :=
  (zip4 contents embeddings chunk_offsets token_counts).enum.map fun p =>
    { chunk_id := idGen p.1
      content := p.2.1
      embedding := p.2.2.1
      source_document := source_document
      chunk_offset := p.2.2.2.1
      token_count := p.2.2.2.2
      created_at := clock p.1 }

/-- LanceDBManager.add_chunks (`app/database.py` lines 121-174).  Order of
effects, as in the source: `_get_table` runs first (it may raise
`IndexNotFoundError`, and on a cache miss it caches the handle); then the list
comprehension over `zip(..., strict=True)` raises `ValueError` when the four
list arguments have different lengths; only then does `table.add` append the
records.  Fresh ids and timestamps are drawn from `idGen`/`clock`. -/
def add_chunks (st : DBState) (idGen : Nat → String) (clock : Nat → Nat)
    (index_name : String) (contents : List (List Char))
    (embeddings : List (List Int)) (source_document : List Char)
    (chunk_offsets : List Int) (token_counts : List Nat) :
    DBState × Except KBError Nat :=
  match get_table st index_name with
  | (st1, .error e) => (st1, .error e)
  | (st1, .ok table) =>
    if contents.length = embeddings.length ∧
        embeddings.length = chunk_offsets.length ∧
        chunk_offsets.length = token_counts.length then
      let chunks := buildChunks idGen clock contents embeddings
        source_document chunk_offsets token_counts
      ({ st1 with tableData := fun m =>
          if m = table then st1.tableData m ++ chunks else st1.tableData m },
       .ok chunks.length)
    else
      (st1, .error (.invalidInput ("zip argument lengths differ")))

/-- Attribute names that exist on a `LanceDBManager` instance
(`app/database.py` lines 20-240): the two instance attributes assigned in
`__init__` and the methods of the class.  There is no `count_rows`. -/
def lanceDBManagerAttrs : List String :=
  ["_db", "_tables", "__init__", "connect", "create_index", "index_exists",
   "list_indexes", "_get_table", "add_chunks", "vector_search", "delete_index",
   "close"]

/-- The record-count endpoint handler `get_record_count`
(`app/main.py` lines 228-246).  Its body evaluates
`db_manager.count_rows(index_name)`; `LanceDBManager` defines no `count_rows`
attribute (see `lanceDBManagerAttrs`), so the attribute lookup raises
`AttributeError` before any index-existence check can run, for every index
name and every store state. -/
def get_record_count (st : DBState) (index_name : String) :
    DBState × Except KBError Nat :=
  (st, .error (.attributeError
    ("LanceDBManager object has no attribute count_rows")))

/-- Application settings, from `app/config.py` (defaults; the values are
environment-configurable constants fixed at startup). -/
structure Settings where
  default_top_k : Nat
  vector_search_limit : Nat
  max_chunk_tokens : Nat

/-- Default settings values from `app/config.py` lines 24-28. -/
def settings : Settings :=
  { default_top_k := 5, vector_search_limit := 20, max_chunk_tokens := 512 }

/-- The index-name pattern from `app/models.py` line 39: starts with an ASCII
letter, followed by ASCII letters, digits, underscores or hyphens. -/
def indexNamePatternMatch (s : List Char) : Bool :=
  match s with
  | [] => false
  | c :: rest =>
    c.isAlpha && rest.all fun d => d.isAlpha || d.isDigit || d == '_' || d == '-'

/-- A parsed /query request body, from `QueryRequest` in `app/models.py`
lines 93-109. -/
structure QueryRequest where
  query : List Char
  index_name : List Char
  top_k : Nat

/-- Pydantic validation of `QueryRequest` (`app/models.py` lines 93-109):
`query` has min length 1, `index_name` has length 1-100 and matches the index
name pattern, and `top_k` satisfies `ge=1, le=100`. -/
def queryRequestValid (r : QueryRequest) : Bool :=
  decide (1 ≤ r.query.length) &&
  decide (1 ≤ r.index_name.length) && decide (r.index_name.length ≤ 100) &&
  indexNamePatternMatch r.index_name &&
  decide (1 ≤ r.top_k) && decide (r.top_k ≤ 100)

/-- The over-fetch limit the /query handler passes to `vector_search`
(`app/main.py` line 563: `limit=settings.vector_search_limit`).  It does not
depend on the request at all, in particular not on `top_k`. -/
def queryOverFetchLimit (_ : QueryRequest) : Nat :=
  settings.vector_search_limit

/-- ModelManager.rerank (`app/services.py` lines 111-142).  The cross-encoder
is the external `predict` capability (one relevance score per query-document
pair, order-preserving); scores are abstract numbers (`Int`).  The source pairs
each score with its candidate position (`enumerate`), sorts by score descending
with Python's stable `list.sort(key=..., reverse=True)` (equal scores keep
their original relative order), and truncates to `top_k`.  A stable sort for a
total preorder has a unique output, so `List.insertionSort` with the relation
`b.2 ≤ a.2` is that sort. -/
def rerank (predict : List Char → List (List Char) → List Int)
    (query : List Char) (documents : List (List Char)) (top_k : Nat) :
    List (Nat × Int) :=
  if documents.isEmpty then []
  else
    let scores := predict query documents
    let indexed_scores := scores.enum
    let sorted := indexed_scores.insertionSort fun a b => b.2 ≤ a.2
    sorted.take top_k

/-- Python whitespace (`str.isspace` / `\s` over the ASCII range): space, tab,
newline, vertical tab, form feed, carriage return. -/
def pyIsSpace (c : Char) : Bool :=
  c == ' ' || c == '\t' || c == '\n' || c == '\x0b' || c == '\x0c' || c == '\r'

/-- Python `str.strip()`: remove leading and trailing whitespace. -/
def pyStrip (s : List Char) : List Char :=
  ((s.dropWhile pyIsSpace).reverse.dropWhile pyIsSpace).reverse

/-- Helper for `pyFind`: scan the suffix `t` of the text (whose first character
sits at absolute position `i`) for the first position where `chunk` is a
prefix. -/
def strFindAux (chunk : List Char) : List Char → Nat → Option Nat
  | [], i => if chunk.isPrefixOf ([] : List Char) then some i else none
  | c :: rest, i =>
    if chunk.isPrefixOf (c :: rest) then some i
    else strFindAux chunk rest (i + 1)

/-- Python `text.find(chunk, start)`: the smallest position `i ≥ start` at
which `chunk` occurs in `text`, or `-1` when there is none (also when
`start > len(text)`). -/
def pyFind (text chunk : List Char) (start : Nat) : Int :=
  if start ≤ text.length then
    match strFindAux chunk (text.drop start) start with
    | some i => (i : Int)
    | none => -1
  else
    -1

/-- The offset-recovery loop of DocumentProcessor.chunk_document
(`app/services.py` lines 221-233): for each chunk, search the content from the
running cursor; on a hit record the hit position and move the cursor past the
chunk occurrence; on a miss (find returned -1) record the cursor itself and
advance it by the chunk length. -/
def computeOffsets (content : List Char) : List (List Char) → Int → List Int
  | [], _ => []
  | chunk :: rest, current_offset =>
    let idx := pyFind content chunk current_offset.toNat
    if idx ≠ -1 then
      idx :: computeOffsets content rest (idx + chunk.length)
    else
      current_offset :: computeOffsets content rest (current_offset + chunk.length)

/-- DocumentProcessor.chunk_document (`app/services.py` lines 208-236): the
semantic chunker is the external capability `chunker`; the offsets are
recovered by `computeOffsets` starting from cursor 0. -/
def chunk_document (chunker : List Char → List (List Char))
    (content : List Char) : List (List Char) × List Int :=
  let chunks := chunker content
  (chunks, computeOffsets content chunks 0)

/-- Spec-side first-occurrence search (spec section 4.1, offset recovery): the
first position `i ≥ cursor` at which `chunk` occurs in `content`, as an
`Option`.  Used to state that `pyFind` implements it. -/
def firstOccurrenceFrom (content chunk : List Char) (cursor : Nat) : Option Nat :=
  ((List.range (content.length + 1)).filter fun i =>
    decide (cursor ≤ i) && chunk.isPrefixOf (content.drop i)).head?

/-- Spec-side offset list (spec section 4.1 wording): for each segment take the
first occurrence in the original text searching from the cursor just past the
previous segment's end; if there is none, fall back to the running cursor. -/
def specOffsets (content : List Char) : List (List Char) → Nat → List Int
  | [], _ => []
  | chunk :: rest, cursor =>
    match firstOccurrenceFrom content chunk cursor with
    | some i => (i : Int) :: specOffsets content rest (i + chunk.length)
    | none => (cursor : Int) :: specOffsets content rest (cursor + chunk.length)

/-- What a filesystem path resolves to: nothing, a regular file with content,
or something else (directory, device, ...).  `Path.exists` is `≠ none`;
`Path.is_file` is `= some (.file _)`. -/
inductive FSEntry where
  | file (content : List Char)
  | directory
  | other
deriving DecidableEq

/-- DocumentProcessor.read_document (`app/services.py` lines 181-206): raise
`DocumentNotFoundError` when the path does not exist, `ValueError` when it
exists but is not a regular file, otherwise return the file content. -/
def read_document (fs : String → Option FSEntry) (file_path : String) :
    Except KBError (List Char) :=
  match fs file_path with
  | none => .error (.documentNotFound file_path)
  | some (.file content) => .ok content
  | some _ => .error (.invalidInput ("Path is not a file: " ++ file_path))

/-- DocumentProcessor.process_document (`app/services.py` lines 238-272): read,
chunk, then — only when at least one chunk resulted — embed all chunks in one
batch call and count tokens per chunk; zero chunks short-circuit to four empty
lists.  `encode` and `countTokens` are the external model capabilities. -/
def process_document (fs : String → Option FSEntry)
    (chunker : List Char → List (List Char))
    (encode : List (List Char) → List (List Int))
    (countTokens : List Char → Nat) (file_path : String) :
    Except KBError
      (List (List Char) × List (List Int) × List Int × List Nat) :=
  match read_document fs file_path with
  | .error e => .error e
  | .ok content =>
    let chunks := (chunk_document chunker content).1
    let offsets := (chunk_document chunker content).2
    if chunks.isEmpty then .ok ([], [], [], [])
    else
      let embeddings := encode chunks
      let token_counts := chunks.map countTokens
      .ok (chunks, embeddings, offsets, token_counts)

/-- Substring test: does `pat` occur contiguously in the list? (Python `in`
on strings.) -/
def containsSub (pat : List Char) : List Char → Bool
  | [] => pat.isPrefixOf ([] : List Char)
  | c :: rest => pat.isPrefixOf (c :: rest) || containsSub pat rest

/-- Suffix test (Python `str.endswith`). -/
def listEndsWith (suffix s : List Char) : Bool :=
  (suffix.reverse).isPrefixOf s.reverse

/-- A parsed manifest link: `(title, url, description)`, from the
`ParsedLLMSTxt` alias in `app/services.py`. -/
abbrev LinkTriple := List Char × List Char × List Char

/-- A parsed manifest: ordered association list from section name to its links
(a Python dict preserves key insertion order and has unique keys). -/
abbrev ParsedLLMS := List (List Char × List LinkTriple)

/-- Does the assoc list already have this key? -/
def hasKey (m : ParsedLLMS) (k : List Char) : Bool :=
  m.any fun p => p.1 == k

/-- Python `if k not in result: result[k] = []`. -/
def addKey (m : ParsedLLMS) (k : List Char) : ParsedLLMS :=
  if hasKey m k then m else m ++ [(k, [])]

/-- Python `result[k].append(t)`: append `t` to the entry of the (unique) key
`k`.  A dict has at most one entry per key, so updating the first match is
exact. -/
def appendLink : ParsedLLMS → List Char → LinkTriple → ParsedLLMS
  | [], _, _ => []
  | p :: rest, k, t =>
    if p.1 == k then (p.1, p.2 ++ [t]) :: rest
    else p :: appendLink rest k t

/-- Total number of links across all sections:
`sum(len(links) for links in result.values())`. -/
def totalLinks (m : ParsedLLMS) : Nat :=
  (m.map fun p => p.2.length).sum

/-- Match of `SECTION_PATTERN`, the regex `^##\s+(.+)$`, against one stripped
line, returning the stripped first group (`app/services.py` line 341 and lines
466-471): two hash marks, at least one whitespace character, then at least one
further character; the group is everything after the whitespace run, except
that when only whitespace follows the hashes the greedy `\s+` backtracks one
character into `(.+)`. -/
def sectionMatch (line : List Char) : Option (List Char) :=
  match line with
  | '#' :: '#' :: c :: rest =>
    if pyIsSpace c then
      let g := (c :: rest).dropWhile pyIsSpace
      if g.isEmpty then
        if rest.isEmpty then none else some []
      else some (pyStrip g)
    else none
  | _ => none

/-- Match of `LINK_PATTERN`, the regex
`-\s*\[([^\]]+)\]\(([^)]+)\)(?::\s*(.+))?`, against one stripped line
(`app/services.py` lines 339 and 474-478), returning the stripped
`(title, url, description)` groups.  `re.match` anchors at the start only, so
trailing text after the pattern is allowed; a missing or empty description
yields the empty string. -/
def parseLink (line : List Char) : Option LinkTriple :=
  match line with
  | '-' :: rest =>
    match rest.dropWhile pyIsSpace with
    | '[' :: r2 =>
      let title := r2.takeWhile fun c => c ≠ ']'
      if title.isEmpty then none
      else
        match r2.dropWhile fun c => c ≠ ']' with
        | ']' :: '(' :: r4 =>
          let url := r4.takeWhile fun c => c ≠ ')'
          if url.isEmpty then none
          else
            match r4.dropWhile fun c => c ≠ ')' with
            | ')' :: r6 =>
              let desc :=
                match r6 with
                | ':' :: r7 => pyStrip (r7.dropWhile pyIsSpace)
                | _ => []
              some (pyStrip title, pyStrip url, desc)
            | _ => none
        | _ => none
    | _ => none
  | _ => none

/-- The markdown-retention test of `parse_llms_txt` (`app/services.py` line
485): keep the resolved URL when it ends in `.md` or contains the substring
`.md#`. -/
def retainUrl (url : List Char) : Bool :=
  listEndsWith (".md".toList) url || containsSub (".md#".toList) url

/-- One resolved link URL: absolute `http(s)` URLs are kept as given, others go
through `urljoin(scheme://netloc, url)`, modelled by the external resolver
capability (`app/services.py` lines 480-482). -/
def resolveUrl (resolveRel : List Char → List Char) (url : List Char) :
    List Char :=
  if ("http://".toList).isPrefixOf url || ("https://".toList).isPrefixOf url
  then url
  else resolveRel url

/-- Accumulator of the `parse_llms_txt` loop: the dict built so far and the
current section name (initially `"default"`). -/
structure ParseAcc where
  result : ParsedLLMS
  current_section : List Char

/-- One iteration of the `parse_llms_txt` line loop (`app/services.py` lines
462-491): strip the raw line; a section header opens (or re-selects) a
section; otherwise a link line whose resolved URL passes the markdown test is
appended to the current section with its fragment stripped
(`url.split("#")[0]`); anything else is skipped. -/
def processLine (resolveRel : List Char → List Char) (acc : ParseAcc)
    (raw_line : List Char) : ParseAcc :=
  let line := pyStrip raw_line
  match sectionMatch line with
  | some sec => { result := addKey acc.result sec, current_section := sec }
  | none =>
    match parseLink line with
    | some (title, url0, desc) =>
      let url := resolveUrl resolveRel url0
      if retainUrl url then
        let fetch_u := url.takeWhile fun c => c ≠ '#'
        { acc with result := (appendLink (addKey acc.result acc.current_section)
            acc.current_section (title, fetch_u, desc)) }
      else acc
    | none => acc

/-- LLMSTxtScraper.parse_llms_txt (`app/services.py` lines 440-501): split the
manifest on newlines, run the line loop, and raise `LLMSTxtParseError` exactly
when zero links were retained across all sections. -/
def parse_llms_txt (resolveRel : List Char → List Char) (content : List Char)
    (base_url : List Char) : Except KBError ParsedLLMS :=
  let lines := content.splitOn '\n'
  let acc := lines.foldl (processLine resolveRel)
    { result := [], current_section := "default".toList }
  if totalLinks acc.result = 0 then
    .error (.parseError base_url ("No markdown links found in llms.txt"))
  else
    .ok acc.result

/-- LLMSTxtScraper.filter_sections (`app/services.py` lines 503-524). -/
def filter_sections (parsed : ParsedLLMS)
    (sections : Option (List (List Char))) : ParsedLLMS :=
  match sections with
  | none => parsed
  | some secs => parsed.filter fun p => p.1 ∈ secs

/-- LLMSTxtScraper.get_unique_urls (`app/services.py` lines 526-541): the set
of link URLs.  Python materializes a `set` whose iteration order is
unspecified; this model fixes first-occurrence order, which is adequate because
every property proved below is order-insensitive. -/
def get_unique_urls (parsed : ParsedLLMS) : List (List Char) :=
  ((parsed.map fun p => p.2.map fun t => t.2.1).flatten).foldl
    (fun acc u => if u ∈ acc then acc else acc ++ [u]) []

/-- The per-document body of the step-6 ingestion loop of `process_llms_txt`
(`app/services.py` lines 627-658), folded over the fetched-content map: chunk,
skip when no chunks, else embed, count tokens, and `add_chunks`; any raised
error is caught and the loop continues (the document is simply not counted). -/
def ingestLoop (chunker : List Char → List (List Char))
    (encode : List (List Char) → List (List Int))
    (countTokens : List Char → Nat) (idGen : Nat → String)
    (clock : Nat → Nat) (index_name : String) :
    List (List Char × List Char) → Nat → DBState → Nat × DBState
  | [], processed, st => (processed, st)
  | (url, content) :: rest, processed, st =>
    let chunks := (chunk_document chunker content).1
    let offsets := (chunk_document chunker content).2
    if chunks.isEmpty then
      ingestLoop chunker encode countTokens idGen clock index_name rest
        processed st
    else
      let embeddings := encode chunks
      let token_counts := chunks.map countTokens
      match add_chunks st idGen clock index_name chunks embeddings url offsets
          token_counts with
      | (st1, .ok _) =>
        ingestLoop chunker encode countTokens idGen clock index_name rest
          (processed + 1) st1
      | (st1, .error _) =>
        ingestLoop chunker encode countTokens idGen clock index_name rest
          processed st1

/-- The section-filtering step of `process_llms_txt` (`app/services.py` lines
610-612): Python `if sections:` filters only when a non-empty list was
requested (both `None` and the empty list are falsy). -/
def sectionFiltered (parsed : ParsedLLMS)
    (sections : Option (List (List Char))) : ParsedLLMS :=
  match sections with
  | none => parsed
  | some [] => parsed
  | some secs => filter_sections parsed (some secs)

/-- LLMSTxtScraper.process_llms_txt (`app/services.py` lines 571-663).  The
HTTP capability is `fetch` (`none` models a fetch failure: `fetch_url` raises
`LLMSTxtFetchError` for the manifest, while `fetch_markdown_safe` catches that
error and yields `None` for resources).  Steps: fetch manifest (fatal on
failure), parse (fatal on failure), record `sections_found` from the parse
result, filter sections when a non-empty list was requested (Python
truthiness: `if sections:`), deduplicate URLs, fetch all resources keeping
only successes, then run the ingestion loop. -/
def process_llms_txt (resolveRel : List Char → List Char)
    (fetch : List Char → Option (List Char))
    (chunker : List Char → List (List Char))
    (encode : List (List Char) → List (List Int))
    (countTokens : List Char → Nat) (idGen : Nat → String)
    (clock : Nat → Nat) (st : DBState) (llms_txt_url : List Char)
    (index_name : String) (sections : Option (List (List Char))) :
    DBState × Except KBError (Nat × List (List Char)) :=
  match fetch llms_txt_url with
  | none => (st, .error (.fetchError llms_txt_url ("fetch failed")))
  | some llms_txt_content =>
    match parse_llms_txt resolveRel llms_txt_content llms_txt_url with
    | .error e => (st, .error e)
    | .ok parsed =>
      let sections_found := parsed.map fun p => p.1
      let parsed2 := sectionFiltered parsed sections
      let urls := get_unique_urls parsed2
      if urls.isEmpty then (st, .ok (0, sections_found))
      else
        let content_map := urls.filterMap fun u => (fetch u).map fun c => (u, c)
        let run := ingestLoop chunker encode countTokens idGen
          clock index_name content_map 0 st
        (run.2, .ok (run.1, sections_found))

/-- C1 (code_bug evidence): the record-count endpoint never produces a
taxonomy error — in particular never `NotFound` for an absent index — because
`LanceDBManager` has no `count_rows` attribute at all: for every store state
and every index name the handler fails with `AttributeError`, a generic
unlabeled failure outside the taxonomy of spec section 7.  This contradicts
the spec (`CountRows(name)` fails with `NotFound` if absent; caller-visible
failures are always taxonomy kinds) and the repository's own tests
(`tests/test_api.py` expects 200/404 from this endpoint). -/
theorem get_record_count_generic_failure :
    "count_rows" ∉ lanceDBManagerAttrs ∧
    ∀ (st : DBState) (index_name : String), ∃ e : KBError,
      (get_record_count st index_name).2 = .error e ∧ e.isTaxonomy = false := by
  exact ⟨by decide, fun _ _ => ⟨_, rfl, rfl⟩⟩

/-- C2 (counterexample): the claim "the over-fetch limit is ≥ topK for every
accepted query" is false.  The request with `top_k = 21` passes `QueryRequest`
validation (`ge=1, le=100`), yet the limit the /query handler passes to
vector search is the constant `settings.vector_search_limit = 20 < 21`. -/
theorem query_over_fetch_below_top_k :
    queryRequestValid
      { query := "q".toList, index_name := "docs".toList, top_k := 21 } = true ∧
    queryOverFetchLimit
      { query := "q".toList, index_name := "docs".toList, top_k := 21 } < 21 := by
  exact ⟨by decide, by decide⟩

/-- C2 (amended): for every accepted query the over-fetch limit passed to
vector search is the fixed configurable constant
`settings.vector_search_limit` (default 20), independent of `topK`; it is
≥ `topK` exactly when `topK ≤ 20`, while validation accepts `topK` up to
100. -/
theorem query_over_fetch_limit_spec (r : QueryRequest)
    (h : queryRequestValid r = true) :
    queryOverFetchLimit r = settings.vector_search_limit ∧
    settings.vector_search_limit = 20 ∧
    (r.top_k ≤ queryOverFetchLimit r ↔ r.top_k ≤ 20) ∧
    1 ≤ r.top_k ∧ r.top_k ≤ 100 := by
  have h' := h
  simp only [queryRequestValid, Bool.and_eq_true, decide_eq_true_eq] at h'
  exact ⟨rfl, rfl, Iff.rfl, h'.1.2, h'.2⟩

/-- Witness for `query_over_fetch_limit_spec` at the request
`{query := "q", index_name := "docs", top_k := 5}`. -/
theorem query_over_fetch_limit_spec_witness :
    queryRequestValid
      { query := "q".toList, index_name := "docs".toList, top_k := 5 } = true ∧
    (queryOverFetchLimit
        { query := "q".toList, index_name := "docs".toList, top_k := 5 } =
        settings.vector_search_limit ∧
      settings.vector_search_limit = 20 ∧
      ((5 : Nat) ≤ queryOverFetchLimit
          { query := "q".toList, index_name := "docs".toList, top_k := 5 } ↔
        (5 : Nat) ≤ 20) ∧
      1 ≤ (5 : Nat) ∧ (5 : Nat) ≤ 100) :=
  ⟨by decide, query_over_fetch_limit_spec _ (by decide)⟩

/-- C5: process_document fails with `DocumentNotFound` when the path does not
exist, fails with an invalid-input (`ValueError`) format error when the path
exists but is not a regular file, and returns four empty lists (not an error)
when the document chunks to zero segments. -/
theorem process_document_error_cases (fs : String → Option FSEntry)
    (chunker : List Char → List (List Char))
    (encode : List (List Char) → List (List Int))
    (countTokens : List Char → Nat) (file_path : String) :
    (fs file_path = none →
      process_document fs chunker encode countTokens file_path =
        .error (.documentNotFound file_path)) ∧
    (∀ e, fs file_path = some e → (∀ c, e ≠ .file c) →
      process_document fs chunker encode countTokens file_path =
        .error (.invalidInput ("Path is not a file: " ++ file_path))) ∧
    (∀ content, fs file_path = some (.file content) → chunker content = [] →
      process_document fs chunker encode countTokens file_path =
        .ok ([], [], [], [])) := by
  refine ⟨fun h => ?_, fun e he hne => ?_, fun content hc hz => ?_⟩
  · simp only [process_document, read_document, h]
  · cases e with
    | file c => exact absurd rfl (hne c)
    | directory => simp only [process_document, read_document, he]
    | other => simp only [process_document, read_document, he]
  · have h1 : (chunk_document chunker content).1 = [] := by
      simp [chunk_document, hz]
    simp [process_document, read_document, hc, h1]

/-- Witness for `process_document_error_cases`: a concrete filesystem with a
missing path, a directory path, and a file path whose chunker yields zero
chunks, exercising all three branches. -/
theorem process_document_error_cases_witness :
    (process_document
        (fun p => if p = "d" then some .directory
          else if p = "a.md" then some (.file ("hi".toList)) else none)
        (fun _ => []) (fun _ => []) (fun _ => 0) "missing" =
      .error (.documentNotFound "missing")) ∧
    (process_document
        (fun p => if p = "d" then some .directory
          else if p = "a.md" then some (.file ("hi".toList)) else none)
        (fun _ => []) (fun _ => []) (fun _ => 0) "d" =
      .error (.invalidInput ("Path is not a file: " ++ "d"))) ∧
    (process_document
        (fun p => if p = "d" then some .directory
          else if p = "a.md" then some (.file ("hi".toList)) else none)
        (fun _ => []) (fun _ => []) (fun _ => 0) "a.md" =
      .ok ([], [], [], [])) :=
  ⟨(process_document_error_cases _ _ _ _ _).1 rfl,
   (process_document_error_cases _ _ _ _ _).2.1 .directory rfl
     (fun c h => FSEntry.noConfusion h),
   (process_document_error_cases _ _ _ _ _).2.2 ("hi".toList) rfl rfl⟩

/-- C10: add_chunks is atomic on precondition failure.  Called on an existing
index with list arguments of unequal length, the strict zip raises
`ValueError` before `table.add` runs, so the stored contents of every table —
in particular the target index — are unchanged by the failed call (only the
handle cache may have been populated by `_get_table`). -/
theorem add_chunks_atomic_on_mismatch (st : DBState) (idGen : Nat → String)
    (clock : Nat → Nat) (index_name : String) (contents : List (List Char))
    (embeddings : List (List Int)) (source_document : List Char)
    (chunk_offsets : List Int) (token_counts : List Nat)
    (hex : index_name ∈ st.tableNames)
    (hmis : ¬(contents.length = embeddings.length ∧
      embeddings.length = chunk_offsets.length ∧
      chunk_offsets.length = token_counts.length)) :
    (∃ msg, (add_chunks st idGen clock index_name contents embeddings
        source_document chunk_offsets token_counts).2 =
      .error (.invalidInput msg)) ∧
    ∀ m, ((add_chunks st idGen clock index_name contents embeddings
        source_document chunk_offsets token_counts).1).tableData m =
      st.tableData m := by
  unfold add_chunks get_table
  by_cases hc : index_name ∈ st.cache
  · simp [hc, hmis]
  · simp [hc, hex, hmis]

/-- Witness for `add_chunks_atomic_on_mismatch`: a store holding the table
`docs`, called with one content but zero embeddings. -/
theorem add_chunks_atomic_on_mismatch_witness :
    ("docs" ∈ ["docs"]) ∧
    ¬(([("a".toList)].length = ([] : List (List Int)).length ∧
      ([] : List (List Int)).length = ([] : List Int).length ∧
      ([] : List Int).length = ([] : List Nat).length)) ∧
    ((∃ msg, (add_chunks
        { tableNames := ["docs"], tableData := fun _ => [], cache := [] }
        (fun _ => "id") (fun _ => 0) "docs" [("a".toList)] [] ("src".toList)
        [] []).2 = .error (.invalidInput msg)) ∧
    ∀ m, ((add_chunks
        { tableNames := ["docs"], tableData := fun _ => [], cache := [] }
        (fun _ => "id") (fun _ => 0) "docs" [("a".toList)] [] ("src".toList)
        [] []).1).tableData m =
      ({ tableNames := ["docs"], tableData := fun _ => [],
         cache := [] } : DBState).tableData m) :=
  ⟨by decide, by decide,
   add_chunks_atomic_on_mismatch _ _ _ _ _ _ _ _ _ (by decide) (by decide)⟩

/-- The cache-touching manager operations named by the invariant claim:
create_index, _get_table, delete_index, close. -/
inductive MgrOp where
  | createIndex (index_name : String)
  | getTable (index_name : String)
  | deleteIndex (index_name : String)
  | close

/-- Run one manager operation for its state effect; a raised error leaves the
state as the operation left it (the error value itself goes to the caller). -/
def runOp (st : DBState) : MgrOp → DBState
  | .createIndex n => (create_index st n).1
  | .getTable n => (get_table st n).1
  | .deleteIndex n => (delete_index st n).1
  | .close => closeManager st

/-- The handle-cache invariant: cache keys are distinct (they are dict keys)
and every cached name is a table that exists in the store. -/
def cacheConsistent (st : DBState) : Prop :=
  st.cache.Nodup ∧ ∀ n ∈ st.cache, n ∈ st.tableNames

theorem mem_cacheInsert {c : List String} {n m : String} :
    m ∈ cacheInsert c n ↔ m ∈ c ∨ m = n := by
  unfold cacheInsert
  by_cases h : n ∈ c
  · simp only [if_pos h]
    constructor
    · exact Or.inl
    · rintro (hm | rfl)
      · exact hm
      · exact h
  · simp [if_neg h]

theorem nodup_cacheInsert {c : List String} {n : String} (h : c.Nodup) :
    (cacheInsert c n).Nodup := by
  unfold cacheInsert
  by_cases hn : n ∈ c
  · simpa [if_pos hn] using h
  · rw [if_neg hn]
    refine List.Nodup.append h (List.nodup_singleton n) ?_
    intro a ha hb
    rw [List.mem_singleton] at hb
    subst hb
    exact hn ha

theorem runOp_preserves_cacheConsistent (st : DBState) (op : MgrOp)
    (h : cacheConsistent st) : cacheConsistent (runOp st op) := by
  obtain ⟨hnd, hsub⟩ := h
  cases op with
  | createIndex n =>
    simp only [runOp, create_index]
    by_cases hex : n ∈ st.tableNames
    · simpa [if_pos hex] using ⟨hnd, hsub⟩
    · simp only [if_neg hex]
      refine ⟨nodup_cacheInsert hnd, fun m hm => ?_⟩
      rcases mem_cacheInsert.mp hm with hm | rfl
      · exact List.mem_append_left _ (hsub m hm)
      · exact List.mem_append_right _ (List.mem_singleton_self m)
  | getTable n =>
    simp only [runOp, get_table]
    by_cases hc : n ∈ st.cache
    · simpa [if_pos hc] using ⟨hnd, hsub⟩
    · by_cases hex : n ∈ st.tableNames
      · simp only [if_neg hc, hex, not_true_eq_false, if_false, if_neg]
        refine ⟨nodup_cacheInsert hnd, fun m hm => ?_⟩
        rcases mem_cacheInsert.mp hm with hm | rfl
        · exact hsub m hm
        · exact hex
      · simpa [if_neg hc, hex] using ⟨hnd, hsub⟩
  | deleteIndex n =>
    simp only [runOp, delete_index]
    by_cases hex : n ∈ st.tableNames
    · simp only [hex, not_true_eq_false, if_false]
      refine ⟨hnd.erase n, fun m hm => ?_⟩
      obtain ⟨hne, hm⟩ := (List.Nodup.mem_erase_iff hnd).mp hm
      exact (List.mem_erase_of_ne hne).mpr (hsub m hm)
    · simpa [hex] using ⟨hnd, hsub⟩
  | close =>
    exact ⟨List.nodup_nil, by simp [runOp, closeManager]⟩

/-- C9: starting from any cache-consistent state (for example a fresh manager,
whose cache is empty), no sequence of create_index / _get_table / delete_index
/ close operations can leave a cached handle for an index that does not exist
in the store; in particular an index deleted through the manager is never left
cached. -/
theorem cache_never_stale (ops : List MgrOp) (st : DBState)
    (h : cacheConsistent st) :
    cacheConsistent (ops.foldl runOp st) ∧
    ∀ n, n ∉ (ops.foldl runOp st).tableNames →
      n ∉ (ops.foldl runOp st).cache := by
  have main : cacheConsistent (ops.foldl runOp st) := by
    induction ops generalizing st with
    | nil => exact h
    | cons op rest ih =>
      exact ih _ (runOp_preserves_cacheConsistent st op h)
  exact ⟨main, fun n hn hc => hn (main.2 n hc)⟩

/-- Witness for `cache_never_stale`: a concrete run — create `a`, open `a`,
create `b`, delete `a` — starting from the empty manager state. -/
theorem cache_never_stale_witness :
    cacheConsistent
      { tableNames := [], tableData := fun _ => [], cache := [] } ∧
    (cacheConsistent
        ([MgrOp.createIndex "a", MgrOp.getTable "a", MgrOp.createIndex "b",
          MgrOp.deleteIndex "a"].foldl runOp
          { tableNames := [], tableData := fun _ => [], cache := [] }) ∧
      ∀ n, n ∉ (([MgrOp.createIndex "a", MgrOp.getTable "a",
          MgrOp.createIndex "b", MgrOp.deleteIndex "a"].foldl runOp
          { tableNames := [], tableData := fun _ => [],
            cache := [] }).tableNames) →
        n ∉ (([MgrOp.createIndex "a", MgrOp.getTable "a",
          MgrOp.createIndex "b", MgrOp.deleteIndex "a"].foldl runOp
          { tableNames := [], tableData := fun _ => [],
            cache := [] }).cache)) :=
  ⟨⟨List.nodup_nil, by simp⟩,
   cache_never_stale _ _ ⟨List.nodup_nil, by simp⟩⟩

theorem zip4_eq_zip {α β γ δ : Type} (a : List α) (b : List β) (c : List γ)
    (d : List δ) : zip4 a b c d = a.zip (b.zip (c.zip d)) := by
  induction a generalizing b c d with
  | nil => cases b <;> cases c <;> cases d <;> rfl
  | cons x xs ih =>
    cases b with
    | nil => rfl
    | cons y ys =>
      cases c with
      | nil => rfl
      | cons z zs =>
        cases d with
        | nil => rfl
        | cons w ws => simp [zip4, List.zip_cons_cons, ih]

theorem zip4_length_eq {α β γ δ : Type} {a : List α} {b : List β} {c : List γ}
    {d : List δ} (h1 : a.length = b.length) (h2 : b.length = c.length)
    (h3 : c.length = d.length) : (zip4 a b c d).length = a.length := by
  rw [zip4_eq_zip]
  simp only [List.length_zip]
  omega

theorem zip4_map_fst {α β γ δ : Type} {a : List α} {b : List β} {c : List γ}
    {d : List δ} (h1 : a.length = b.length) (h2 : b.length = c.length)
    (h3 : c.length = d.length) :
    (zip4 a b c d).map (fun p => p.1) = a := by
  rw [zip4_eq_zip]
  have : a.length ≤ (b.zip (c.zip d)).length := by
    simp [List.length_zip]
    omega
  simpa using List.map_fst_zip a (b.zip (c.zip d)) this

theorem enum_map_via_snd {α β : Type} (l : List α) (f : α → β) :
    l.enum.map (fun p => f p.2) = l.map f := by
  have : (fun p : Nat × α => f p.2) = f ∘ Prod.snd := rfl
  rw [this, ← List.map_map, List.enum_map_snd]

theorem enum_map_via_fst {α β : Type} (l : List α) (g : Nat → β) :
    l.enum.map (fun p => g p.1) = (List.range l.length).map g := by
  have : (fun p : Nat × α => g p.1) = g ∘ Prod.fst := rfl
  rw [this, ← List.map_map, List.enum_map_fst]

theorem buildChunks_facts (idGen : Nat → String) (clock : Nat → Nat)
    (contents : List (List Char)) (embeddings : List (List Int))
    (source_document : List Char) (chunk_offsets : List Int)
    (token_counts : List Nat)
    (h1 : contents.length = embeddings.length)
    (h2 : embeddings.length = chunk_offsets.length)
    (h3 : chunk_offsets.length = token_counts.length) :
    (buildChunks idGen clock contents embeddings source_document chunk_offsets
        token_counts).length = contents.length ∧
    (buildChunks idGen clock contents embeddings source_document chunk_offsets
        token_counts).map Chunk.content = contents ∧
    (buildChunks idGen clock contents embeddings source_document chunk_offsets
        token_counts).map Chunk.chunk_id =
      (List.range contents.length).map idGen ∧
    (buildChunks idGen clock contents embeddings source_document chunk_offsets
        token_counts).map Chunk.created_at =
      (List.range contents.length).map clock := by
  have hz : (zip4 contents embeddings chunk_offsets token_counts).length =
      contents.length := zip4_length_eq h1 h2 h3
  unfold buildChunks
  refine ⟨by simp [hz], ?_, ?_, ?_⟩
  · rw [List.map_map]
    have : (Chunk.content ∘ fun p :
        Nat × (List Char × List Int × Int × Nat) =>
        ({ chunk_id := idGen p.1, content := p.2.1, embedding := p.2.2.1,
           source_document := source_document, chunk_offset := p.2.2.2.1,
           token_count := p.2.2.2.2, created_at := clock p.1 } : Chunk)) =
        fun p => p.2.1 := rfl
    rw [this, enum_map_via_snd]
    exact zip4_map_fst h1 h2 h3
  · rw [List.map_map]
    have : (Chunk.chunk_id ∘ fun p :
        Nat × (List Char × List Int × Int × Nat) =>
        ({ chunk_id := idGen p.1, content := p.2.1, embedding := p.2.2.1,
           source_document := source_document, chunk_offset := p.2.2.2.1,
           token_count := p.2.2.2.2, created_at := clock p.1 } : Chunk)) =
        fun p => idGen p.1 := rfl
    rw [this, enum_map_via_fst, hz]
  · rw [List.map_map]
    have : (Chunk.created_at ∘ fun p :
        Nat × (List Char × List Int × Int × Nat) =>
        ({ chunk_id := idGen p.1, content := p.2.1, embedding := p.2.2.1,
           source_document := source_document, chunk_offset := p.2.2.2.1,
           token_count := p.2.2.2.2, created_at := clock p.1 } : Chunk)) =
        fun p => clock p.1 := rfl
    rw [this, enum_map_via_fst, hz]

/-- C6: the add_chunks contract.  (i) When the index neither exists nor is
cached, the call fails with `NotFound` and leaves the state untouched.
(ii) Whenever the list arguments have mismatched lengths the call fails (with
`NotFound` or the strict-zip `ValueError`), never returning a count.
(iii) When the lengths agree and the index exists, the call appends exactly
one record per element to the target index (its other tables untouched),
gives record `i` the fresh id `idGen i` and creation timestamp `clock i` —
ids pairwise distinct whenever the id generator is injective — and returns
the count added, `contents.length`. -/
theorem add_chunks_contract (st : DBState) (idGen : Nat → String)
    (clock : Nat → Nat) (index_name : String) (contents : List (List Char))
    (embeddings : List (List Int)) (source_document : List Char)
    (chunk_offsets : List Int) (token_counts : List Nat) :
    (index_name ∉ st.tableNames → index_name ∉ st.cache →
      add_chunks st idGen clock index_name contents embeddings source_document
          chunk_offsets token_counts = (st, .error (.indexNotFound index_name))) ∧
    (¬(contents.length = embeddings.length ∧
        embeddings.length = chunk_offsets.length ∧
        chunk_offsets.length = token_counts.length) →
      ∃ e, (add_chunks st idGen clock index_name contents embeddings
          source_document chunk_offsets token_counts).2 = .error e) ∧
    ((index_name ∈ st.tableNames ∨ index_name ∈ st.cache) →
      contents.length = embeddings.length →
      embeddings.length = chunk_offsets.length →
      chunk_offsets.length = token_counts.length →
      (add_chunks st idGen clock index_name contents embeddings
          source_document chunk_offsets token_counts).2 =
        .ok contents.length ∧
      ((add_chunks st idGen clock index_name contents embeddings
          source_document chunk_offsets token_counts).1).tableData index_name =
        st.tableData index_name ++ buildChunks idGen clock contents embeddings
          source_document chunk_offsets token_counts ∧
      (∀ m, m ≠ index_name →
        ((add_chunks st idGen clock index_name contents embeddings
            source_document chunk_offsets token_counts).1).tableData m =
          st.tableData m) ∧
      (buildChunks idGen clock contents embeddings source_document
          chunk_offsets token_counts).length = contents.length ∧
      (buildChunks idGen clock contents embeddings source_document
          chunk_offsets token_counts).map Chunk.content = contents ∧
      (buildChunks idGen clock contents embeddings source_document
          chunk_offsets token_counts).map Chunk.chunk_id =
        (List.range contents.length).map idGen ∧
      (buildChunks idGen clock contents embeddings source_document
          chunk_offsets token_counts).map Chunk.created_at =
        (List.range contents.length).map clock ∧
      (Function.Injective idGen →
        ((buildChunks idGen clock contents embeddings source_document
            chunk_offsets token_counts).map Chunk.chunk_id).Nodup)) := by
  refine ⟨fun hnt hnc => ?_, fun hmis => ?_, fun hex h1 h2 h3 => ?_⟩
  · simp [add_chunks, get_table, hnt, hnc]
  · unfold add_chunks get_table
    by_cases hc : index_name ∈ st.cache
    · simp [hc, hmis]
    · by_cases ht : index_name ∈ st.tableNames
      · simp [hc, ht, hmis]
      · simp [hc, ht]
  · obtain ⟨hlen, hcont, hid, hts⟩ := buildChunks_facts idGen clock contents
      embeddings source_document chunk_offsets token_counts h1 h2 h3
    have hok : ∀ st1 : DBState, get_table st index_name = (st1, .ok index_name) →
        st1.tableData = st.tableData →
        (add_chunks st idGen clock index_name contents embeddings
            source_document chunk_offsets token_counts).2 =
          .ok contents.length ∧
        ((add_chunks st idGen clock index_name contents embeddings
            source_document chunk_offsets token_counts).1).tableData
            index_name =
          st.tableData index_name ++ buildChunks idGen clock contents
            embeddings source_document chunk_offsets token_counts ∧
        (∀ m, m ≠ index_name →
          ((add_chunks st idGen clock index_name contents embeddings
              source_document chunk_offsets token_counts).1).tableData m =
            st.tableData m) := by
      intro st1 hgt hdata
      unfold add_chunks
      simp only [hgt]
      rw [if_pos ⟨h1, h2, h3⟩]
      refine ⟨by simp [hlen], by simp [hdata], fun m hm => by simp [hm, hdata]⟩
    have base : (add_chunks st idGen clock index_name contents embeddings
          source_document chunk_offsets token_counts).2 =
        .ok contents.length ∧
        ((add_chunks st idGen clock index_name contents embeddings
            source_document chunk_offsets token_counts).1).tableData
            index_name =
          st.tableData index_name ++ buildChunks idGen clock contents
            embeddings source_document chunk_offsets token_counts ∧
        (∀ m, m ≠ index_name →
          ((add_chunks st idGen clock index_name contents embeddings
              source_document chunk_offsets token_counts).1).tableData m =
            st.tableData m) := by
      by_cases hc : index_name ∈ st.cache
      · exact hok st (by simp [get_table, hc]) rfl
      · have ht : index_name ∈ st.tableNames := by
          rcases hex with h | h
          · exact h
          · exact absurd h hc
        exact hok { st with cache := cacheInsert st.cache index_name }
          (by simp [get_table, hc, ht]) rfl
    refine ⟨base.1, base.2.1, base.2.2, hlen, hcont, hid, hts, fun hinj => ?_⟩
    rw [hid]
    exact (List.nodup_range _).map hinj

/-- Witness for `add_chunks_contract`: all three branches at concrete inputs —
a missing index, a length mismatch, and a successful two-chunk append. -/
theorem add_chunks_contract_witness :
    (add_chunks { tableNames := [], tableData := fun _ => [], cache := [] }
        (fun _ => "id") (fun _ => 0) "docs" [] [] ("src".toList) [] [] =
      ({ tableNames := [], tableData := fun _ => [], cache := [] },
        .error (.indexNotFound "docs"))) ∧
    (∃ e, (add_chunks
        { tableNames := ["docs"], tableData := fun _ => [], cache := [] }
        (fun _ => "id") (fun _ => 0) "docs" [("a".toList)] [] ("src".toList)
        [] []).2 = .error e) ∧
    ((add_chunks
        { tableNames := ["docs"], tableData := fun _ => [], cache := [] }
        (fun n => String.mk [Char.ofNat (48 + n)]) (fun n => n) "docs"
        [("a".toList), ("b".toList)] [[1], [2]] ("src".toList) [0, 1]
        [1, 1]).2 = .ok 2 ∧
      ((add_chunks
          { tableNames := ["docs"], tableData := fun _ => [], cache := [] }
          (fun n => String.mk [Char.ofNat (48 + n)]) (fun n => n) "docs"
          [("a".toList), ("b".toList)] [[1], [2]] ("src".toList) [0, 1]
          [1, 1]).1).tableData "docs" =
        (({ tableNames := ["docs"], tableData := fun _ => [],
            cache := [] } : DBState)).tableData "docs" ++
          buildChunks (fun n => String.mk [Char.ofNat (48 + n)]) (fun n => n)
            [("a".toList), ("b".toList)] [[1], [2]] ("src".toList) [0, 1]
            [1, 1]) :=
  ⟨(add_chunks_contract _ _ _ _ _ _ _ _ _).1 (by decide) (by decide),
   (add_chunks_contract _ _ _ _ _ _ _ _ _).2.1 (by decide),
   ((add_chunks_contract _ _ _ _ _ _ _ _ _).2.2 (Or.inl (by decide))
       (by decide) (by decide) (by decide)).1,
   ((add_chunks_contract _ _ _ _ _ _ _ _ _).2.2 (Or.inl (by decide))
       (by decide) (by decide) (by decide)).2.1⟩

theorem enumFrom_pairwise_fst_lt {α : Type} (n : Nat) (l : List α) :
    (l.enumFrom n).Pairwise fun a b => a.1 < b.1 := by
  induction l generalizing n with
  | nil => exact List.Pairwise.nil
  | cons x xs ih =>
    refine List.Pairwise.cons (fun y hy => ?_) (ih (n + 1))
    obtain ⟨i, a⟩ := y
    exact lt_of_lt_of_le (Nat.lt_succ_self n) (List.mem_enumFrom hy).1

theorem orderedInsert_tie (x : Nat × Int) (l : List (Nat × Int))
    (hl : l.Pairwise fun a b => a.2 = b.2 → a.1 < b.1)
    (hx : ∀ y ∈ l, x.1 < y.1) :
    (List.orderedInsert (fun a b => b.2 ≤ a.2) x l).Pairwise
      fun a b => a.2 = b.2 → a.1 < b.1 := by
  induction l with
  | nil => simp [List.orderedInsert]
  | cons y ys ih =>
    rw [List.orderedInsert]
    by_cases hr : y.2 ≤ x.2
    · rw [if_pos hr]
      exact List.Pairwise.cons (fun z hz _ => hx z hz) hl
    · rw [if_neg hr]
      obtain ⟨hy, hys⟩ := List.pairwise_cons.mp hl
      refine List.Pairwise.cons (fun z hz => ?_)
        (ih hys fun z hz => hx z (List.mem_cons_of_mem _ hz))
      rcases (List.mem_orderedInsert _).mp hz with rfl | hz
      · exact fun heq => absurd (le_of_eq heq) hr
      · exact hy z hz

theorem insertionSort_tie (l : List (Nat × Int))
    (hl : l.Pairwise fun a b => a.1 < b.1) :
    (List.insertionSort (fun a b => b.2 ≤ a.2) l).Pairwise
      fun a b => a.2 = b.2 → a.1 < b.1 := by
  induction l with
  | nil => simp [List.insertionSort]
  | cons x xs ih =>
    rw [List.insertionSort]
    obtain ⟨hx, hxs⟩ := List.pairwise_cons.mp hl
    exact orderedInsert_tie x _ (ih hxs)
      fun y hy => hx y ((List.mem_insertionSort _).mp hy)

/-- C3: the rerank contract.  For every query, candidate list, and
`top_k ≥ 1`, and every length-preserving scoring capability, the returned
(index, score) pairs have non-increasing scores, ties are broken by the
original candidate order (equal scores keep strictly increasing vector-search
indices), and the result length is at most `min top_k documents.length`. -/
theorem rerank_ordering (predict : List Char → List (List Char) → List Int)
    (query : List Char) (documents : List (List Char)) (top_k : Nat)
    (hlen : (predict query documents).length = documents.length)
    (hk : 1 ≤ top_k) :
    ((rerank predict query documents top_k).map Prod.snd).Pairwise (· ≥ ·) ∧
    (rerank predict query documents top_k).Pairwise
      (fun a b => a.2 = b.2 → a.1 < b.1) ∧
    (rerank predict query documents top_k).length ≤
      min top_k documents.length := by
  by_cases hd : documents.isEmpty = true
  · simp [rerank, hd]
  · have hr : rerank predict query documents top_k =
        (((predict query documents).enum).insertionSort
          (fun a b => b.2 ≤ a.2)).take top_k := by
      unfold rerank
      rw [if_neg hd]
    have hsorted : List.Sorted (fun a b : Nat × Int => b.2 ≤ a.2)
        (((predict query documents).enum).insertionSort
          (fun a b => b.2 ≤ a.2)) := by
      haveI : IsTotal (Nat × Int) (fun a b => b.2 ≤ a.2) :=
        ⟨fun a b => le_total b.2 a.2⟩
      haveI : IsTrans (Nat × Int) (fun a b => b.2 ≤ a.2) :=
        ⟨fun _ _ _ hab hbc => le_trans hbc hab⟩
      exact List.sorted_insertionSort _ _
    refine ⟨?_, ?_, ?_⟩
    · rw [hr]
      exact List.pairwise_map.mpr
        (List.Pairwise.sublist (List.take_sublist _ _) hsorted)
    · rw [hr]
      refine List.Pairwise.sublist (List.take_sublist _ _) ?_
      exact insertionSort_tie _ (enumFrom_pairwise_fst_lt 0 _)
    · rw [hr, List.length_take, List.length_insertionSort, List.enum_length,
        hlen]

/-- Witness for `rerank_ordering`: three one-to-two character documents scored
by length, `top_k = 2`. -/
theorem rerank_ordering_witness :
    ((fun (_ : List Char) (ds : List (List Char)) =>
        ds.map fun d => (d.length : Int)) ("q".toList)
      [['a'], ['b', 'b'], ['c']]).length = [['a'], ['b', 'b'], ['c']].length ∧
    1 ≤ 2 ∧
    (((rerank (fun _ ds => ds.map fun d => (d.length : Int)) ("q".toList)
        [['a'], ['b', 'b'], ['c']] 2).map Prod.snd).Pairwise (· ≥ ·) ∧
      (rerank (fun _ ds => ds.map fun d => (d.length : Int)) ("q".toList)
        [['a'], ['b', 'b'], ['c']] 2).Pairwise
        (fun a b => a.2 = b.2 → a.1 < b.1) ∧
      (rerank (fun _ ds => ds.map fun d => (d.length : Int)) ("q".toList)
        [['a'], ['b', 'b'], ['c']] 2).length ≤
        min 2 [['a'], ['b', 'b'], ['c']].length) :=
  ⟨by decide, by decide,
   rerank_ordering _ ("q".toList) [['a'], ['b', 'b'], ['c']] 2 (by decide)
     (by decide)⟩

/-- The least position at which `chunk` occurs in `t` (positions `0..t.length`,
so an empty chunk can match at the very end). -/
def leastOccurrence (chunk t : List Char) : Option Nat :=
  ((List.range (t.length + 1)).filter fun j => chunk.isPrefixOf (t.drop j)).head?

theorem strFindAux_shift (chunk : List Char) (t : List Char) :
    ∀ i, strFindAux chunk t i = (strFindAux chunk t 0).map (· + i) := by
  induction t with
  | nil =>
    intro i
    by_cases hp : chunk.isPrefixOf ([] : List Char) = true
    · rw [strFindAux, if_pos hp, strFindAux, if_pos hp]
      simp
    · rw [strFindAux, if_neg hp, strFindAux, if_neg hp]
      rfl
  | cons c rest ih =>
    intro i
    by_cases hp : chunk.isPrefixOf (c :: rest) = true
    · rw [strFindAux, if_pos hp, strFindAux, if_pos hp]
      simp
    · rw [strFindAux, if_neg hp, ih (i + 1), strFindAux, if_neg hp, ih 1,
        Option.map_map]
      cases strFindAux chunk rest 0 with
      | none => rfl
      | some v =>
        simp only [Option.map_some', Function.comp_apply]
        congr 1
        omega

theorem leastOccurrence_cons (chunk : List Char) (c : Char) (rest : List Char) :
    leastOccurrence chunk (c :: rest) =
      if chunk.isPrefixOf (c :: rest) = true then some 0
      else (leastOccurrence chunk rest).map Nat.succ := by
  unfold leastOccurrence
  rw [show (c :: rest).length + 1 = rest.length + 1 + 1 from by simp,
    List.range_succ_eq_map, List.filter_cons]
  by_cases hp : chunk.isPrefixOf (c :: rest) = true
  · rw [if_pos (by simpa using hp), if_pos hp]
    rfl
  · rw [if_neg (by simpa using hp), if_neg hp, List.filter_map,
      List.head?_map]
    have harg : ((fun j => chunk.isPrefixOf ((c :: rest).drop j)) ∘
        Nat.succ) = fun j => chunk.isPrefixOf (rest.drop j) := by
      funext j
      simp [List.drop_succ_cons]
    rw [harg]

theorem strFindAux_zero_eq (chunk : List Char) : ∀ (t : List Char),
    strFindAux chunk t 0 = leastOccurrence chunk t := by
  intro t
  induction t with
  | nil => cases chunk <;> rfl
  | cons c rest ih =>
    rw [leastOccurrence_cons]
    by_cases hp : chunk.isPrefixOf (c :: rest) = true
    · rw [strFindAux, if_pos hp, if_pos hp]
    · rw [strFindAux, if_neg hp, if_neg hp, strFindAux_shift, ih]

theorem firstOccurrenceFrom_zero (chunk content : List Char) :
    firstOccurrenceFrom content chunk 0 = leastOccurrence chunk content := by
  unfold firstOccurrenceFrom leastOccurrence
  have harg : (fun i => decide (0 ≤ i) &&
      chunk.isPrefixOf (content.drop i)) =
      fun i => chunk.isPrefixOf (content.drop i) := by
    funext i
    simp
  rw [harg]

theorem firstOccurrenceFrom_succ (chunk : List Char) (c : Char)
    (rest : List Char) (n : Nat) :
    firstOccurrenceFrom (c :: rest) chunk (n + 1) =
      (firstOccurrenceFrom rest chunk n).map Nat.succ := by
  unfold firstOccurrenceFrom
  rw [show (c :: rest).length + 1 = rest.length + 1 + 1 from by simp,
    List.range_succ_eq_map, List.filter_cons]
  rw [if_neg (by simp), List.filter_map, List.head?_map]
  have harg : ((fun i => decide (n + 1 ≤ i) &&
      chunk.isPrefixOf ((c :: rest).drop i)) ∘ Nat.succ) =
      fun j => decide (n ≤ j) && chunk.isPrefixOf (rest.drop j) := by
    funext j
    simp [List.drop_succ_cons, Nat.succ_le_succ_iff]
  rw [harg]

theorem firstOccurrenceFrom_eq (chunk : List Char) : ∀ (cursor : Nat)
    (content : List Char),
    firstOccurrenceFrom content chunk cursor =
      if cursor ≤ content.length then
        (leastOccurrence chunk (content.drop cursor)).map (· + cursor)
      else none := by
  intro cursor
  induction cursor with
  | zero =>
    intro content
    rw [if_pos (Nat.zero_le _), firstOccurrenceFrom_zero, List.drop_zero]
    cases leastOccurrence chunk content <;> rfl
  | succ n ih =>
    intro content
    cases content with
    | nil =>
      rw [if_neg (by simp)]
      unfold firstOccurrenceFrom
      rw [show List.length ([] : List Char) + 1 = 1 from rfl,
        show List.range 1 = [0] from rfl, List.filter_cons]
      rw [if_neg (by simp)]
      rfl
    | cons c rest =>
      rw [firstOccurrenceFrom_succ, ih rest]
      by_cases h : n ≤ rest.length
      · rw [if_pos h, if_pos (by simpa using Nat.succ_le_succ h),
          List.drop_succ_cons, Option.map_map]
        cases leastOccurrence chunk (rest.drop n) with
        | none => rfl
        | some v =>
          simp only [Option.map_some', Function.comp_apply]
          rfl
      · rw [if_neg h, if_neg (by simpa [Nat.succ_le_succ_iff] using h)]
        rfl

theorem pyFind_eq (text chunk : List Char) (start : Nat) :
    pyFind text chunk start =
      match firstOccurrenceFrom text chunk start with
      | some k => (k : Int)
      | none => -1 := by
  unfold pyFind
  rw [firstOccurrenceFrom_eq]
  by_cases h : start ≤ text.length
  · rw [if_pos h, if_pos h, strFindAux_shift, strFindAux_zero_eq]
  · rw [if_neg h, if_neg h]

theorem specOffsets_nonneg (content : List Char) :
    ∀ (chunks : List (List Char)) (cursor : Nat),
    ∀ o ∈ specOffsets content chunks cursor, 0 ≤ o := by
  intro chunks
  induction chunks with
  | nil =>
    intro cursor o ho
    simp [specOffsets] at ho
  | cons ch rest ih =>
    intro cursor o ho
    cases hf : firstOccurrenceFrom content ch cursor with
    | some i =>
      rw [specOffsets, hf] at ho
      rcases List.mem_cons.mp ho with rfl | ho
      · exact Int.natCast_nonneg i
      · exact ih _ o ho
    | none =>
      rw [specOffsets, hf] at ho
      rcases List.mem_cons.mp ho with rfl | ho
      · exact Int.natCast_nonneg cursor
      · exact ih _ o ho

theorem computeOffsets_eq_spec (content : List Char) :
    ∀ (chunks : List (List Char)) (cur : Int), 0 ≤ cur →
      computeOffsets content chunks cur =
        specOffsets content chunks cur.toNat := by
  intro chunks
  induction chunks with
  | nil =>
    intro cur _
    rfl
  | cons ch rest ih =>
    intro cur h
    rw [computeOffsets, specOffsets, pyFind_eq]
    cases hf : firstOccurrenceFrom content ch cur.toNat with
    | some k =>
      show (if ((k : Nat) : Int) ≠ -1 then
          ((k : Nat) : Int) ::
            computeOffsets content rest (((k : Nat) : Int) + ch.length)
        else cur :: computeOffsets content rest (cur + ch.length)) =
        ((k : Nat) : Int) :: specOffsets content rest (k + ch.length)
      rw [if_pos (by omega), ih (((k : Nat) : Int) + ch.length) (by omega)]
      have ht : (((k : Nat) : Int) + (ch.length : Int)).toNat =
          k + ch.length := by omega
      rw [ht]
    | none =>
      show (if (-1 : Int) ≠ -1 then
          (-1 : Int) :: computeOffsets content rest ((-1 : Int) + ch.length)
        else cur :: computeOffsets content rest (cur + ch.length)) =
        ((cur.toNat : Nat) : Int) ::
          specOffsets content rest (cur.toNat + ch.length)
      rw [if_neg (by simp), Int.toNat_of_nonneg h,
        ih (cur + ch.length) (by omega)]
      have ht : ((cur + (ch.length : Int))).toNat = cur.toNat + ch.length := by
        omega
      rw [ht]

theorem computeOffsets_length (content : List Char) :
    ∀ (chunks : List (List Char)) (cur : Int),
    (computeOffsets content chunks cur).length = chunks.length := by
  intro chunks
  induction chunks with
  | nil =>
    intro cur
    rfl
  | cons ch rest ih =>
    intro cur
    rw [computeOffsets]
    by_cases hx : pyFind content ch cur.toNat ≠ -1
    · rw [if_pos hx, List.length_cons, ih]
      rfl
    · rw [if_neg hx, List.length_cons, ih]
      rfl

/-- C4: for every input text and every chunker output, chunk_document returns
offset and segment lists of the same length with every offset non-negative,
and the offset list is exactly the spec's: each offset is the first occurrence
of the segment in the original text searching from the cursor just past the
previous segment's end, falling back to the running cursor when no exact
occurrence is found. -/
theorem chunk_document_offsets_spec (chunker : List Char → List (List Char))
    (content : List Char) :
    ((chunk_document chunker content).2).length =
      ((chunk_document chunker content).1).length ∧
    (∀ o ∈ (chunk_document chunker content).2, 0 ≤ o) ∧
    (chunk_document chunker content).2 =
      specOffsets content ((chunk_document chunker content).1) 0 := by
  have h1 : (chunk_document chunker content).1 = chunker content := rfl
  have h2 : (chunk_document chunker content).2 =
      computeOffsets content (chunker content) 0 := rfl
  rw [h1, h2]
  refine ⟨computeOffsets_length content _ 0, fun o ho => ?_, ?_⟩
  · rw [computeOffsets_eq_spec content _ 0 le_rfl] at ho
    exact specOffsets_nonneg content _ _ o ho
  · exact computeOffsets_eq_spec content _ 0 le_rfl

/-- The retention rule exactly as the claim words it: the resolved URL ends in
`.md`, or it carries a fragment on such a path (there is a `#` and the part
before the first `#` — the path — ends in `.md`). -/
def specRetainUrl (url : List Char) : Bool :=
  listEndsWith (".md".toList) url ||
  (url.any (fun c => c == '#') &&
    listEndsWith (".md".toList) (url.takeWhile fun c => c ≠ '#'))

/-- The URLs the parser retains, recomputed line by line: for each line that is
not a section header and matches the link pattern, resolve the URL; keep it —
fragment stripped — exactly when the `retainUrl` test passes. -/
def retainedOfLines (resolveRel : List Char → List Char)
    (lines : List (List Char)) : List (List Char) :=
  lines.filterMap fun raw =>
    match sectionMatch (pyStrip raw) with
    | some _ => none
    | none =>
      match parseLink (pyStrip raw) with
      | some t =>
        let url := resolveUrl resolveRel t.2.1
        if retainUrl url then some (url.takeWhile fun c => c ≠ '#') else none
      | none => none

/-- All stored link URLs of a parsed manifest, in section order. -/
def flattenUrls (m : ParsedLLMS) : List (List Char) :=
  (m.map fun p => p.2.map fun t => t.2.1).flatten

/-- C7 (counterexample): the claim that the parser retains exactly the links
whose resolved URL ends in `.md` or carries a fragment on such a path is
false.  The manifest line `- [t](https://x/a#b.md#c)` has a resolved URL whose
path (`https://x/a`, before the first `#`) does not end in `.md` and which
does not end in `.md` itself — the claim says it must not be retained, and
with it as the only link the parse should fail — yet the code retains it
(its `.md#` substring test fires inside the fragment) and the parse succeeds,
storing the stripped URL `https://x/a`. -/
theorem parse_retains_md_hash_inside_fragment :
    parse_llms_txt id ("- [t](https://x/a#b.md#c)".toList)
        ("https://x/llms.txt".toList) =
      .ok [("default".toList, [("t".toList, "https://x/a".toList, [])])] ∧
    specRetainUrl ("https://x/a#b.md#c".toList) = false ∧
    retainUrl ("https://x/a#b.md#c".toList) = true :=
  ⟨rfl, by decide, by decide⟩

theorem flattenUrls_addKey (m : ParsedLLMS) (k : List Char) :
    flattenUrls (addKey m k) = flattenUrls m := by
  unfold addKey
  by_cases h : hasKey m k = true
  · rw [if_pos h]
  · rw [if_neg h]
    unfold flattenUrls
    simp

theorem totalLinks_addKey (m : ParsedLLMS) (k : List Char) :
    totalLinks (addKey m k) = totalLinks m := by
  unfold addKey
  by_cases h : hasKey m k = true
  · rw [if_pos h]
  · rw [if_neg h]
    unfold totalLinks
    simp

theorem hasKey_addKey (m : ParsedLLMS) (k : List Char) :
    hasKey (addKey m k) k = true := by
  unfold addKey
  by_cases h : hasKey m k = true
  · rwa [if_pos h]
  · rw [if_neg h]
    unfold hasKey
    simp

theorem flattenUrls_cons (p : List Char × List LinkTriple) (m : ParsedLLMS) :
    flattenUrls (p :: m) = (p.2.map fun t => t.2.1) ++ flattenUrls m := by
  unfold flattenUrls
  simp

theorem flattenUrls_appendLink (k : List Char) (t : LinkTriple) :
    ∀ (m : ParsedLLMS), hasKey m k = true →
    (flattenUrls (appendLink m k t)).Perm (flattenUrls m ++ [t.2.1]) := by
  intro m
  induction m with
  | nil =>
    intro h
    simp [hasKey] at h
  | cons p rest ih =>
    intro h
    rw [appendLink]
    by_cases hp : (p.1 == k) = true
    · rw [if_pos hp, flattenUrls_cons, flattenUrls_cons]
      have h1 : (((p.1, p.2 ++ [t]) : List Char × List LinkTriple).2.map
          fun t' => t'.2.1) = (p.2.map fun t' => t'.2.1) ++ [t.2.1] := by
        simp
      rw [h1, List.append_assoc, List.append_assoc]
      exact List.Perm.append_left _ List.perm_append_comm
    · rw [if_neg hp, flattenUrls_cons, flattenUrls_cons, List.append_assoc]
      have hrest : hasKey rest k = true := by
        unfold hasKey at h ⊢
        simpa [hp] using h
      exact List.Perm.append_left _ (ih hrest)

theorem totalLinks_eq_length_flattenUrls (m : ParsedLLMS) :
    totalLinks m = (flattenUrls m).length := by
  unfold totalLinks flattenUrls
  rw [List.length_flatten, List.map_map]
  have harg : (fun p : List Char × List LinkTriple => p.2.length) =
      (List.length ∘ fun p : List Char × List LinkTriple =>
        p.2.map fun t => t.2.1) := by
    funext p
    simp
  rw [harg]

theorem processLine_flatten (resolveRel : List Char → List Char)
    (acc : ParseAcc) (raw : List Char) :
    (flattenUrls (processLine resolveRel acc raw).result).Perm
      (flattenUrls acc.result ++ retainedOfLines resolveRel [raw]) := by
  unfold processLine retainedOfLines
  cases hs : sectionMatch (pyStrip raw) with
  | some sec =>
    simp only [hs, List.filterMap_cons, List.filterMap_nil]
    rw [flattenUrls_addKey]
    simp
  | none =>
    cases hl : parseLink (pyStrip raw) with
    | none =>
      simp only [hs, hl, List.filterMap_cons, List.filterMap_nil]
      simp
    | some t =>
      simp only [hs, hl, List.filterMap_cons, List.filterMap_nil]
      by_cases hr : retainUrl (resolveUrl resolveRel t.2.1) = true
      · simp only [hr, if_true, if_pos]
        have h1 := flattenUrls_appendLink acc.current_section
          (t.1, (resolveUrl resolveRel t.2.1).takeWhile (fun c => c ≠ '#'),
            t.2.2)
          (addKey acc.result acc.current_section)
          (hasKey_addKey acc.result acc.current_section)
        rw [flattenUrls_addKey] at h1
        exact h1
      · simp only [hr, if_false, if_neg]
        simp [hr]

theorem foldl_processLine_flatten (resolveRel : List Char → List Char) :
    ∀ (lines : List (List Char)) (acc : ParseAcc),
    (flattenUrls (lines.foldl (processLine resolveRel) acc).result).Perm
      (flattenUrls acc.result ++ retainedOfLines resolveRel lines) := by
  intro lines
  induction lines with
  | nil =>
    intro acc
    simp [retainedOfLines]
  | cons raw rest ih =>
    intro acc
    rw [List.foldl_cons]
    refine (ih (processLine resolveRel acc raw)).trans ?_
    refine ((processLine_flatten resolveRel acc raw).append_right _).trans ?_
    rw [List.append_assoc]
    have h3 : retainedOfLines resolveRel [raw] ++
        retainedOfLines resolveRel rest =
        retainedOfLines resolveRel (raw :: rest) := by
      unfold retainedOfLines
      rw [List.filterMap_cons, List.filterMap_cons, List.filterMap_nil]
      cases hs : sectionMatch (pyStrip raw) with
      | some sec => rfl
      | none =>
        cases hl : parseLink (pyStrip raw) with
        | none => rfl
        | some t =>
          by_cases hr : retainUrl (resolveUrl resolveRel t.2.1) = true
          · simp [hr]
          · simp [hr]
    rw [h3]

theorem retainedOfLines_no_hash (resolveRel : List Char → List Char)
    (lines : List (List Char)) :
    ∀ u ∈ retainedOfLines resolveRel lines, '#' ∉ u := by
  intro u hu hmem
  obtain ⟨raw, _, hf⟩ := List.mem_filterMap.mp hu
  cases hs : sectionMatch (pyStrip raw) with
  | some sec => simp [hs] at hf
  | none =>
    cases hl : parseLink (pyStrip raw) with
    | none => simp [hs, hl] at hf
    | some t =>
      by_cases hr : retainUrl (resolveUrl resolveRel t.2.1) = true
      · simp only [hs, hl, hr, if_true, if_pos, Option.some.injEq] at hf
        subst hf
        have := List.mem_takeWhile_imp hmem
        simp at this
      · simp [hs, hl, hr] at hf

/-- C7 (amended): for every manifest text, base URL and resolver, the parser
retains exactly the link-pattern lines whose resolved URL passes the code's
markdown test — the URL ends in `.md` or contains the substring `.md#`
(which can also fire inside a fragment, as the counterexample shows) — the
stored URLs are those resolved URLs with everything from the first `#` on
stripped (no stored URL contains `#`), and it raises the parse error if and
only if zero links were retained across all sections. -/
theorem parse_llms_retention (resolveRel : List Char → List Char)
    (content base_url : List Char) :
    ((∃ e, parse_llms_txt resolveRel content base_url = .error e) ↔
      retainedOfLines resolveRel (content.splitOn '\n') = []) ∧
    ∀ parsed, parse_llms_txt resolveRel content base_url = .ok parsed →
      (flattenUrls parsed).Perm
        (retainedOfLines resolveRel (content.splitOn '\n')) ∧
      totalLinks parsed =
        (retainedOfLines resolveRel (content.splitOn '\n')).length ∧
      ∀ u ∈ flattenUrls parsed, '#' ∉ u := by
  have hperm := foldl_processLine_flatten resolveRel (content.splitOn '\n')
    { result := [], current_section := "default".toList }
  have hnil : flattenUrls
      ({ result := [], current_section := "default".toList } :
        ParseAcc).result = [] := rfl
  rw [hnil, List.nil_append] at hperm
  have hunfold : parse_llms_txt resolveRel content base_url =
      (if totalLinks ((content.splitOn '\n').foldl (processLine resolveRel)
          { result := [], current_section := "default".toList }).result = 0
        then .error (.parseError base_url
          ("No markdown links found in llms.txt"))
        else .ok ((content.splitOn '\n').foldl (processLine resolveRel)
          { result := [], current_section := "default".toList }).result) :=
    rfl
  have hlen : totalLinks ((content.splitOn '\n').foldl
        (processLine resolveRel)
        { result := [], current_section := "default".toList }).result =
      (retainedOfLines resolveRel (content.splitOn '\n')).length := by
    rw [totalLinks_eq_length_flattenUrls]
    exact hperm.length_eq
  constructor
  · constructor
    · rintro ⟨e, he⟩
      rw [hunfold] at he
      by_cases h0 : totalLinks ((content.splitOn '\n').foldl
          (processLine resolveRel)
          { result := [], current_section := "default".toList }).result = 0
      · rw [hlen] at h0
        exact List.length_eq_zero.mp h0
      · rw [if_neg h0] at he
        exact Except.noConfusion he
    · intro hr
      exact ⟨.parseError base_url ("No markdown links found in llms.txt"),
        by rw [hunfold, if_pos (by rw [hlen, hr]; rfl)]⟩
  · intro parsed hp
    rw [hunfold] at hp
    by_cases h0 : totalLinks ((content.splitOn '\n').foldl
        (processLine resolveRel)
        { result := [], current_section := "default".toList }).result = 0
    · rw [if_pos h0] at hp
      exact Except.noConfusion hp
    · rw [if_neg h0] at hp
      injection hp with hp'
      subst hp'
      exact ⟨hperm, hlen, fun u hu =>
        retainedOfLines_no_hash resolveRel _ u (hperm.mem_iff.mp hu)⟩

/-- Witness for `parse_llms_retention`: a two-link manifest with one section
header, one absolute and one relative link, parsed against the resolver that
prefixes the site root. -/
theorem parse_llms_retention_witness :
    parse_llms_txt (fun u => "https://x".toList ++ u)
        ("## A\n- [a](https://x/a.md)\n- [b](/b.md)".toList)
        ("https://x/llms.txt".toList) =
      .ok [("A".toList,
        [("a".toList, "https://x/a.md".toList, []),
         ("b".toList, "https://x/b.md".toList, [])])] ∧
    ((flattenUrls [("A".toList,
        [("a".toList, "https://x/a.md".toList, []),
         ("b".toList, "https://x/b.md".toList, [])])]).Perm
      (retainedOfLines (fun u => "https://x".toList ++ u)
        (("## A\n- [a](https://x/a.md)\n- [b](/b.md)".toList).splitOn '\n')) ∧
    totalLinks [("A".toList,
        [("a".toList, "https://x/a.md".toList, []),
         ("b".toList, "https://x/b.md".toList, [])])] =
      (retainedOfLines (fun u => "https://x".toList ++ u)
        (("## A\n- [a](https://x/a.md)\n- [b](/b.md)".toList).splitOn
          '\n')).length ∧
    ∀ u ∈ flattenUrls [("A".toList,
        [("a".toList, "https://x/a.md".toList, []),
         ("b".toList, "https://x/b.md".toList, [])])], '#' ∉ u) :=
  ⟨rfl, (parse_llms_retention (fun u => "https://x".toList ++ u)
    ("## A\n- [a](https://x/a.md)\n- [b](/b.md)".toList)
    ("https://x/llms.txt".toList)).2 _ rfl⟩

theorem ingestLoop_processed_le (chunker : List Char → List (List Char))
    (encode : List (List Char) → List (List Int))
    (countTokens : List Char → Nat) (idGen : Nat → String)
    (clock : Nat → Nat) (index_name : String) :
    ∀ (cm : List (List Char × List Char)) (p0 : Nat) (st : DBState),
    (ingestLoop chunker encode countTokens idGen clock index_name cm p0
      st).1 ≤ p0 + cm.length := by
  intro cm
  induction cm with
  | nil =>
    intro p0 st
    simp [ingestLoop]
  | cons uc rest ih =>
    intro p0 st
    obtain ⟨url, content⟩ := uc
    simp only [ingestLoop]
    by_cases hc : ((chunk_document chunker content).1).isEmpty = true
    · rw [if_pos hc]
      have := ih p0 st
      simp only [List.length_cons]
      omega
    · rw [if_neg hc]
      split
      next st1 n heq =>
        have := ih (p0 + 1) st1
        simp only [List.length_cons]
        omega
      next st1 e heq =>
        have := ih p0 st1
        simp only [List.length_cons]
        omega

theorem filterMap_fetch_length (fetch : List Char → Option (List Char)) :
    ∀ (urls : List (List Char)),
    (urls.filterMap fun u => (fetch u).map fun c => (u, c)).length =
      (urls.filter fun u => (fetch u).isSome).length := by
  intro urls
  induction urls with
  | nil => rfl
  | cons u rest ih =>
    rw [List.filterMap_cons, List.filter_cons]
    cases h : fetch u with
    | none => simpa [h] using ih
    | some c => simpa [h] using ih

/-- C8: whenever the manifest fetch and parse succeed, the crawl completes
without raising — every individual resource-fetch failure is absorbed
(excluded from the fetched-content map) — and returns
`(documentsProcessed, sectionsFound)` where `sectionsFound` is the list of
section names recorded at parse time (before any filtering) and
`documentsProcessed` is bounded by the number of requested URLs whose fetch
succeeded. -/
theorem process_llms_crawl (resolveRel : List Char → List Char)
    (fetch : List Char → Option (List Char))
    (chunker : List Char → List (List Char))
    (encode : List (List Char) → List (List Int))
    (countTokens : List Char → Nat) (idGen : Nat → String)
    (clock : Nat → Nat) (st : DBState) (llms_txt_url : List Char)
    (index_name : String) (sections : Option (List (List Char)))
    (mc : List Char) (parsed : ParsedLLMS)
    (hm : fetch llms_txt_url = some mc)
    (hp : parse_llms_txt resolveRel mc llms_txt_url = .ok parsed) :
    ∃ processed st1,
      process_llms_txt resolveRel fetch chunker encode countTokens idGen
          clock st llms_txt_url index_name sections =
        (st1, .ok (processed, parsed.map fun p => p.1)) ∧
      processed ≤ ((get_unique_urls (sectionFiltered parsed sections)).filter
        fun u => (fetch u).isSome).length := by
  unfold process_llms_txt
  simp only [hm, hp]
  by_cases hu : (get_unique_urls (sectionFiltered parsed sections)).isEmpty =
      true
  · rw [if_pos hu]
    exact ⟨0, st, rfl, Nat.zero_le _⟩
  · rw [if_neg hu]
    refine ⟨_, _, rfl, ?_⟩
    refine le_trans (ingestLoop_processed_le chunker encode countTokens
      idGen clock index_name _ 0 st) ?_
    rw [Nat.zero_add, filterMap_fetch_length]

/-- Concrete crawl scenario (spec section 8): a manifest with two sections and
five links. -/
def crawlManifest : List Char :=
  ("## A\n- [a](https://x/a.md)\n- [b](https://x/b.md)\n- [c](https://x/c.md)\n## B\n- [d](https://x/d.md)\n- [e](https://x/e.md)").toList

/-- Concrete fetch oracle: the manifest URL resolves to `crawlManifest`, the
resource `https://x/c.md` fails, every other URL fetches a small document. -/
def crawlFetch : List Char → Option (List Char) :=
  fun u =>
    if u = ("https://x/llms.txt").toList then some crawlManifest
    else if u = ("https://x/c.md").toList then none
    else some (("doc").toList)

/-- The parse result of `crawlManifest`. -/
def crawlParsed : ParsedLLMS :=
  [(("A").toList,
    [(("a").toList, ("https://x/a.md").toList, []),
     (("b").toList, ("https://x/b.md").toList, []),
     (("c").toList, ("https://x/c.md").toList, [])]),
   (("B").toList,
    [(("d").toList, ("https://x/d.md").toList, []),
     (("e").toList, ("https://x/e.md").toList, [])])]

/-- Witness for `process_llms_crawl`: the two-section, five-link manifest with
one failing resource fetch, ingesting into an existing index `docs`. -/
theorem process_llms_crawl_witness :
    crawlFetch (("https://x/llms.txt").toList) = some crawlManifest ∧
    parse_llms_txt id crawlManifest (("https://x/llms.txt").toList) =
      .ok crawlParsed ∧
    ∃ processed st1,
      process_llms_txt id crawlFetch (fun c => [c])
          (fun cs => cs.map fun _ => [0]) (fun _ => 1) (fun _ => "id")
          (fun _ => 0)
          { tableNames := ["docs"], tableData := fun _ => [], cache := [] }
          (("https://x/llms.txt").toList) "docs" none =
        (st1, .ok (processed, crawlParsed.map fun p => p.1)) ∧
      processed ≤ ((get_unique_urls (sectionFiltered crawlParsed none)).filter
        fun u => (crawlFetch u).isSome).length :=
  ⟨rfl, rfl,
   process_llms_crawl id crawlFetch (fun c => [c])
     (fun cs => cs.map fun _ => [0]) (fun _ => 1) (fun _ => "id") (fun _ => 0)
     { tableNames := ["docs"], tableData := fun _ => [], cache := [] }
     (("https://x/llms.txt").toList) "docs" none crawlManifest crawlParsed
     rfl rfl⟩
